import Mathlib

/-!
Verification development for the n8n-workflows indexing and search engine
(`workflow_db.py`).  The Python code is shallowly embedded: strings are
`String`/`List Char` with hand-rolled, structurally recursive models of the
Python string primitives actually used by the source (`lower`, `title`,
`capitalize`, `strip`, `split`, `replace`, `in`, `startswith`, `isdigit`);
`dict` literals become association lists in source order; Python `set`
accumulation becomes insertion-ordered duplicate-free lists; the SQLite
`workflows` table (keyed by the UNIQUE `filename` column) becomes a list of
records with first-match lookup and in-place upsert; `json.load` is modelled
by bundling each file's raw bytes with the parse result; the MD5 fingerprint is
modelled as the identity digest on the raw bytes (the standard collision-free
idealization).  All definitions are executable and kernel-evaluable.
-/

namespace WorkflowDB

/-- ASCII lower-case check, matching Python `str.islower` domain for ASCII. -/
def isAsciiLowerCh (c : Char) : Bool := 97 ≤ c.toNat && c.toNat ≤ 122

/-- ASCII upper-case check. -/
def isAsciiUpperCh (c : Char) : Bool := 65 ≤ c.toNat && c.toNat ≤ 90

/-- ASCII letter check: the "cased" characters relevant to `str.title` for ASCII input. -/
def isAsciiAlphaCh (c : Char) : Bool := isAsciiLowerCh c || isAsciiUpperCh c

/-- ASCII digit check (Python `str.isdigit` on ASCII). -/
def isAsciiDigitCh (c : Char) : Bool := 48 ≤ c.toNat && c.toNat ≤ 57

/-- Lower-case one character, as Python `str.lower` does on ASCII. -/
def lowerCh (c : Char) : Char :=
  if isAsciiUpperCh c then Char.ofNat (c.toNat + 32) else c

/-- Upper-case one character, as Python `str.upper` does on ASCII. -/
def upperCh (c : Char) : Char :=
  if isAsciiLowerCh c then Char.ofNat (c.toNat - 32) else c

/-- Model of Python `str.lower` on character lists. -/
def lowerL : List Char → List Char
  | [] => []
  | c :: rest => lowerCh c :: lowerL rest

/-- Model of Python `str.lower`. -/
def pyLower (s : String) : String := String.mk (lowerL s.data)

/-- Model of Python `str.capitalize`: first character upper-cased, rest lower-cased. -/
def pyCapitalize (s : String) : String :=
  match s.data with
  | [] => ""
  | c :: rest => String.mk (upperCh c :: lowerL rest)

/-- Helper for Python `str.title`: the flag records whether the previous character was cased. -/
def titleAux : Bool → List Char → List Char
  | _, [] => []
  | prevCased, c :: rest =>
    if isAsciiAlphaCh c then
      (if prevCased then lowerCh c else upperCh c) :: titleAux true rest
    else
      c :: titleAux false rest

/-- Model of Python `str.title` (ASCII): a letter is upper-cased after a non-cased
character and lower-cased after a cased one. -/
def pyTitle (s : String) : String := String.mk (titleAux false s.data)

/-- List-level "is a prefix of" check (Python `str.startswith`). -/
def isPre : List Char → List Char → Bool
  | [], _ => true
  | _ :: _, [] => false
  | a :: as, b :: bs => a == b && isPre as bs

/-- List-level substring containment: `hasSubL p s` holds iff `p` occurs contiguously
in `s` (Python `p in s`). -/
def hasSubL (p : List Char) : List Char → Bool
  | [] => isPre p []
  | c :: t => isPre p (c :: t) || hasSubL p t

/-- String-level substring containment: Python `pat in s`. -/
def hasSubStr (s pat : String) : Bool := hasSubL pat.data s.data

/-- Model of Python `str.startswith`. -/
def pyStartsWith (s pat : String) : Bool := isPre pat.data s.data

/-- Python whitespace characters stripped by `str.strip()`. -/
def isPySpaceCh (c : Char) : Bool :=
  c == ' ' || c == '\t' || c == '\n' || c == '\r' || c == '\x0b' || c == '\x0c'

/-- Model of Python `str.strip()` (no argument: strips whitespace from both ends). -/
def pyStrip (s : String) : String :=
  String.mk (((s.data.dropWhile isPySpaceCh).reverse.dropWhile isPySpaceCh).reverse)

/-- Fuel-driven worker for Python `str.replace` (all occurrences, left to right,
non-overlapping); the fuel is an upper bound on the scan length so the recursion
is structural and kernel-evaluable. -/
def replaceAux (p r : List Char) : Nat → List Char → List Char
  | 0, s => s
  | _ + 1, [] => []
  | fuel + 1, c :: rest =>
    if isPre p (c :: rest) then r ++ replaceAux p r fuel ((c :: rest).drop p.length)
    else c :: replaceAux p r fuel rest

/-- Model of Python `s.replace(pat, rep)` for a non-empty pattern. -/
def pyReplace (s pat rep : String) : String :=
  if pat.data.isEmpty then s
  else String.mk (replaceAux pat.data rep.data s.data.length s.data)

/-- Splitting a character list on a separator character (Python `str.split(sep)`
for a one-character separator; empty segments are kept). -/
def splitChAux (sep : Char) : List Char → List Char → List (List Char)
  | [], acc => [acc.reverse]
  | c :: rest, acc =>
    if c == sep then acc.reverse :: splitChAux sep rest []
    else splitChAux sep rest (c :: acc)

/-- Model of Python `s.split(sep)` for a one-character separator. -/
def splitCh (sep : Char) (s : List Char) : List (List Char) := splitChAux sep s []

/-- Model of Python `str.isdigit` on ASCII: non-empty and all digits. -/
def pyIsDigit (s : String) : Bool := !s.data.isEmpty && s.data.all isAsciiDigitCh

/-- Model of Python `sep.join(parts)`. -/
def joinSep (sep : String) : List String → String
  | [] => ""
  | [x] => x
  | x :: y :: rest => x ++ sep ++ joinSep sep (y :: rest)

/-- Model of `os.path.basename` for POSIX paths: the final `/`-separated component. -/
def basename (p : String) : String :=
  String.mk ((splitCh '/' p.data).getLastD [])

/-- One entry of a document's `nodes` list: `node.get('type', '')` and
`node.get('name', '')` are the only node fields the analyzer reads. -/
structure NodeJson where
  type : String
  name : String
deriving DecidableEq

/-- One entry of a document's `tags` list: either a plain string or a structured
object, of which only the `name` and `id` fields are ever consulted. -/
inductive TagJson where
  | str (s : String)
  | obj (nm : Option String) (idv : Option String)
deriving DecidableEq

/-- The fields `analyze_workflow_file` reads from the parsed JSON document
(`data.get(...)` with the listed defaults).  The `connections` map is read by the
source but never used or stored, so it is not modelled. -/
structure WorkflowJson where
  id : String
  name : String
  active : Bool
  nodes : List NodeJson
  tags : List TagJson
  createdAt : String
  updatedAt : String
  description : String
deriving DecidableEq

/-- A file's on-disk content: the raw bytes together with what `json.load`
yields on them (`none` models `json.JSONDecodeError`/`UnicodeDecodeError`). -/
structure FileContent where
  raw : String
  parsed : Option WorkflowJson
deriving DecidableEq

/-- One corpus file found by `Path(self.workflows_dir).rglob("*.json")`. -/
structure FileEntry where
  path : String
  content : FileContent
deriving DecidableEq

/-- A row of the `workflows` table (`filename` is the UNIQUE key). `analyzed_at`
models the `CURRENT_TIMESTAMP` written at insert time. -/
structure WorkflowRecord where
  filename : String
  name : String
  workflow_id : String
  active : Bool
  description : String
  trigger_type : String
  complexity : String
  node_count : Nat
  integrations : List String
  tags : List TagJson
  created_at : String
  updated_at : String
  file_hash : String
  file_size : Nat
  analyzed_at : Nat
deriving DecidableEq

/-- Model of `get_file_hash`: the MD5 fingerprint of the raw file bytes, idealized
as the identity digest (distinct byte strings have distinct fingerprints). -/
def getFileHash (c : FileContent) : String := c.raw

/-- Model of `os.path.getsize` on the modelled byte string. -/
def fileSize (c : FileContent) : Nat := c.raw.data.length

/-- The `service_mappings` dict of `analyze_nodes`, in source order; `none` values
model the Python `None` sentinel ("tool node, excluded from integrations"). -/
def serviceMappings : List (String × Option String) :=
  [("telegram", some "Telegram"),
   ("telegramTrigger", some "Telegram"),
   ("discord", some "Discord"),
   ("slack", some "Slack"),
   ("whatsapp", some "WhatsApp"),
   ("mattermost", some "Mattermost"),
   ("teams", some "Microsoft Teams"),
   ("rocketchat", some "Rocket.Chat"),
   ("gmail", some "Gmail"),
   ("mailjet", some "Mailjet"),
   ("emailreadimap", some "Email (IMAP)"),
   ("emailsendsmt", some "Email (SMTP)"),
   ("outlook", some "Outlook"),
   ("googledrive", some "Google Drive"),
   ("googledocs", some "Google Docs"),
   ("googlesheets", some "Google Sheets"),
   ("dropbox", some "Dropbox"),
   ("onedrive", some "OneDrive"),
   ("box", some "Box"),
   ("postgres", some "PostgreSQL"),
   ("mysql", some "MySQL"),
   ("mongodb", some "MongoDB"),
   ("redis", some "Redis"),
   ("airtable", some "Airtable"),
   ("notion", some "Notion"),
   ("jira", some "Jira"),
   ("github", some "GitHub"),
   ("gitlab", some "GitLab"),
   ("trello", some "Trello"),
   ("asana", some "Asana"),
   ("mondaycom", some "Monday.com"),
   ("openai", some "OpenAI"),
   ("anthropic", some "Anthropic"),
   ("huggingface", some "Hugging Face"),
   ("linkedin", some "LinkedIn"),
   ("twitter", some "Twitter/X"),
   ("facebook", some "Facebook"),
   ("instagram", some "Instagram"),
   ("shopify", some "Shopify"),
   ("stripe", some "Stripe"),
   ("paypal", some "PayPal"),
   ("googleanalytics", some "Google Analytics"),
   ("mixpanel", some "Mixpanel"),
   ("googlecalendar", some "Google Calendar"),
   ("googletasks", some "Google Tasks"),
   ("cal", some "Cal.com"),
   ("calendly", some "Calendly"),
   ("typeform", some "Typeform"),
   ("googleforms", some "Google Forms"),
   ("form", some "Form Trigger"),
   ("webhook", some "Webhook"),
   ("httpRequest", some "HTTP Request"),
   ("graphql", some "GraphQL"),
   ("sse", some "Server-Sent Events"),
   ("set", none),
   ("function", none),
   ("code", none),
   ("if", none),
   ("switch", none),
   ("merge", none),
   ("split", none),
   ("stickynote", none),
   ("stickyNote", none),
   ("wait", none),
   ("schedule", none),
   ("cron", none),
   ("manual", none),
   ("stopanderror", none),
   ("noop", none),
   ("noOp", none),
   ("error", none),
   ("limit", none),
   ("aggregate", none),
   ("summarize", none),
   ("filter", none),
   ("sort", none),
   ("removeDuplicates", none),
   ("dateTime", none),
   ("extractFromFile", none),
   ("convertToFile", none),
   ("readBinaryFile", none),
   ("readBinaryFiles", none),
   ("executionData", none),
   ("executeWorkflow", none),
   ("executeCommand", none),
   ("respondToWebhook", none)]

/-- Dict key lookup `service_mappings.get(raw_service, _)` (hit/miss part only):
`some v` when the key is present with value `v` (`v = none` is the exclusion
sentinel), `none` when the key is absent. -/
def lookupMapping (k : String) : Option (Option String) :=
  (serviceMappings.find? (fun p => p.1 == k)).map (fun p => p.2)

/-- The normalized key `analyze_nodes` computes for an `n8n-nodes-base.` node:
`node_type.replace('n8n-nodes-base.', '').lower().replace('trigger', '')`. -/
def rawServiceOf (t : String) : String :=
  pyReplace (pyLower (pyReplace t "n8n-nodes-base." "")) "trigger" ""

/-- The normalized key for an `@n8n/` namespaced node:
`node_type.split('.')[-1].lower() if '.' in node_type else node_type.lower()`,
then `.replace('trigger', '')`. -/
def rawServiceOfAtN8n (t : String) : String :=
  let base := if hasSubStr t "." then String.mk ((splitCh '.' t.data).getLastD []) else t
  pyReplace (pyLower base) "trigger" ""

/-- Scan of the dot-separated parts of a custom node type for the four
hard-coded service hints (`youtube`, `telegram`, `discord`, `calcslive`). -/
def customScan : List (List Char) → Option String
  | [] => none
  | p :: rest =>
    if hasSubL "youtube".data p then some "YouTube"
    else if hasSubL "telegram".data p then some "Telegram"
    else if hasSubL "discord".data p then some "Discord"
    else if hasSubL "calcslive".data p then some "CalcsLive"
    else customScan rest

/-- Dict get with computed default:
`service_mappings.get(raw_service, raw_service.title() if raw_service else None)`. -/
def mappingGetOrTitle (raw : String) : Option String :=
  match lookupMapping raw with
  | some v => v
  | none => if raw == "" then none else some (pyTitle raw)

/-- The type-derived service name of one node (the three `node_type` branches of
`analyze_nodes`'s extraction). -/
def typeService (t : String) : Option String :=
  if pyStartsWith t "n8n-nodes-base." then
    mappingGetOrTitle (rawServiceOf t)
  else if pyStartsWith t "@n8n/" then
    mappingGetOrTitle (rawServiceOfAtN8n t)
  else if hasSubStr t "-" || hasSubStr t "@" then
    customScan (splitCh '.' (pyLower t).data)
  else none

/-- The secondary name-based scan: first `service_mappings` entry (in dict order)
whose key occurs in the lowered node name and whose value is truthy, skipping the
`'cal'` key when the documented CalcsLive false-positive guard fires. -/
def nameScan (lname : String) : List (String × Option String) → Option String
  | [] => none
  | (k, v) :: rest =>
    match v with
    | none => nameScan lname rest
    | some sv =>
      if hasSubStr lname k then
        if k == "cal" &&
            (hasSubStr lname "calcslive" || hasSubStr lname "calc" ||
             hasSubStr lname "calculation") then
          nameScan lname rest
        else some sv
      else nameScan lname rest

/-- The final service name extracted from one node: type-derived candidate,
overridden by the name scan when it matches, then filtered by
`if service_name and service_name not in ['None', None]`. -/
def nodeService (n : NodeJson) : Option String :=
  let lname := pyLower n.name
  let s0 := typeService n.type
  let s1 := match nameScan lname serviceMappings with
            | some v => some v
            | none => s0
  match s1 with
  | none => none
  | some v => if v == "" || v == "None" then none else some v

/-- Python `set.add`, modelled as insertion-ordered duplicate-free append. -/
def addIntegration (l : List String) (s : String) : List String :=
  if l.contains s then l else l ++ [s]

/-- The per-node trigger-type update of `analyze_nodes` (the `if/elif` chain at
the top of the node loop). -/
def stepTrigger (tr : String) (n : NodeJson) : String :=
  let ltype := pyLower n.type
  let lname := pyLower n.name
  if hasSubStr ltype "webhook" || hasSubStr lname "webhook" then "Webhook"
  else if hasSubStr ltype "cron" || hasSubStr ltype "schedule" then "Scheduled"
  else if hasSubStr ltype "trigger" && tr == "Manual" then
    if !hasSubStr ltype "manual" then "Webhook" else tr
  else tr

/-- One iteration of the node loop of `analyze_nodes`: updates the running
trigger type and the running integrations set. -/
def analyzeNode (st : String × List String) (n : NodeJson) : String × List String :=
  (stepTrigger st.1 n,
   match nodeService n with
   | some v => addIntegration st.2 v
   | none => st.2)

/-- The trigger type after the per-node loop, before the node-diversity
escalation (the value of `trigger_type` when the loop of `analyze_nodes` ends). -/
def preTriggerType (nodes : List NodeJson) : String :=
  (nodes.foldl analyzeNode ("Manual", [])).1

/-- Model of `analyze_nodes`: the loop over the nodes followed by the
`len(nodes) > 10 and len(integrations) > 3` escalation to `Complex`. -/
def analyzeNodes (nodes : List NodeJson) : String × List String :=
  let st := nodes.foldl analyzeNode ("Manual", [])
  if nodes.length > 10 ∧ st.2.length > 3 then ("Complex", st.2) else st

/-- The special-cased token rendering inside `format_workflow_name`. -/
def formatPart (part : String) : String :=
  if pyLower part == "http" then "HTTP"
  else if pyLower part == "api" then "API"
  else if pyLower part == "webhook" then "Webhook"
  else if pyLower part == "automation" then "Automation"
  else if pyLower part == "automate" then "Automate"
  else if pyLower part == "scheduled" then "Scheduled"
  else if pyLower part == "triggered" then "Triggered"
  else if pyLower part == "manual" then "Manual"
  else pyCapitalize part

/-- Model of `format_workflow_name`: strip `.json`, split on underscores, drop a
leading all-digit segment when more than one segment exists, render each token,
join with spaces. -/
def formatWorkflowName (filename : String) : String :=
  let name := pyReplace filename ".json" ""
  let parts := (splitCh '_' name.data).map String.mk
  let parts :=
    match parts with
    | p0 :: rest => if rest.length + 1 > 1 && pyIsDigit p0 then rest else p0 :: rest
    | [] => []
  joinSep " " (parts.map formatPart)

/-- The complexity tier computed by `analyze_workflow_file` from the node count. -/
def complexityFor (nodeCount : Nat) : String :=
  if nodeCount ≤ 5 then "low"
  else if nodeCount ≤ 15 then "medium"
  else "high"

/-- Model of `generate_description`: trigger lead-in, integration clause for up
to three services, purpose clause keyed on the resolved name, node count, and the
extra services clause when more than three integrations exist. -/
def generateDescription (name : String) (nodeCount : Nat) (triggerType : String)
    (integrations : List String) : String :=
  let desc0 :=
    if triggerType == "Webhook" then "Webhook-triggered automation that"
    else if triggerType == "Scheduled" then "Scheduled automation that"
    else if triggerType == "Complex" then "Complex multi-step automation that"
    else "Manual workflow that"
  let desc1 := desc0 ++
    (match integrations.take 3 with
     | [] => ""
     | [a] => " integrates with " ++ a
     | [a, b] => " connects " ++ a ++ " and " ++ b
     | a :: b :: c :: _ => " orchestrates " ++ a ++ ", " ++ b ++ ", and " ++ c)
  let nameLower := pyLower name
  let purpose :=
    if hasSubStr nameLower "create" then " to create new records"
    else if hasSubStr nameLower "update" then " to update existing data"
    else if hasSubStr nameLower "sync" then " to synchronize data"
    else if hasSubStr nameLower "notification" || hasSubStr nameLower "alert" then
      " for notifications and alerts"
    else if hasSubStr nameLower "backup" then " for data backup operations"
    else if hasSubStr nameLower "monitor" then " for monitoring and reporting"
    else " for data processing"
  let desc2 := desc1 ++ purpose ++ ". Uses " ++ Nat.repr nodeCount ++ " nodes"
  let desc3 := desc2 ++
    (if integrations.length > 3 then
      " and integrates with " ++ Nat.repr integrations.length ++ " services"
    else "")
  desc3 ++ "."

/-- Model of the body of `analyze_workflow_file` after a successful `json.load`:
derives every stored field of the Document Record.  `t` is the insert-time
`CURRENT_TIMESTAMP` written into `analyzed_at`. -/
def analyzeParsed (filename fileHash : String) (size t : Nat)
    (data : WorkflowJson) : WorkflowRecord :=
  let formatted := formatWorkflowName filename
  let jsonName := pyStrip data.name
  let name :=
    if jsonName != "" && jsonName != pyReplace filename ".json" "" &&
        !pyStartsWith jsonName "My workflow" then
      jsonName
    else formatted
  let nodeCount := data.nodes.length
  let complexity := complexityFor nodeCount
  let tin := analyzeNodes data.nodes
  let jsonDescription := pyStrip data.description
  let description :=
    if jsonDescription != "" then jsonDescription
    else generateDescription name nodeCount tin.1 tin.2
  { filename := filename
    name := name
    workflow_id := data.id
    active := data.active
    description := description
    trigger_type := tin.1
    complexity := complexity
    node_count := nodeCount
    integrations := tin.2
    tags := data.tags
    created_at := data.createdAt
    updated_at := data.updatedAt
    file_hash := fileHash
    file_size := size
    analyzed_at := t }

/-- Model of `analyze_workflow_file`: `none` on a JSON/encoding failure, the
derived record otherwise. -/
def analyzeWorkflowFile (t : Nat) (f : FileEntry) : Option WorkflowRecord :=
  match f.content.parsed with
  | none => none
  | some data =>
    some (analyzeParsed (basename f.path) (getFileHash f.content) (fileSize f.content) t data)

/-- Lookup of the row with the given `filename` (`SELECT ... WHERE filename = ?`
against the UNIQUE `filename` column). -/
def lookupStore : List WorkflowRecord → String → Option WorkflowRecord
  | [], _ => none
  | r :: rest, fn => if r.filename = fn then some r else lookupStore rest fn

/-- Model of `INSERT OR REPLACE` keyed on the UNIQUE `filename` column. -/
def upsertStore : List WorkflowRecord → WorkflowRecord → List WorkflowRecord
  | [], rec => [rec]
  | r :: rest, rec =>
    if r.filename = rec.filename then rec :: rest else r :: upsertStore rest rec

/-- The aggregate counters returned by `index_all_workflows`. -/
structure IndexStats where
  processed : Nat
  skipped : Nat
  errors : Nat
deriving DecidableEq

/-- The change-detection gate of `index_all_workflows`: a stored row for the
file's basename whose fingerprint equals the current one. -/
def hashMatches (store : List WorkflowRecord) (f : FileEntry) : Bool :=
  match lookupStore store (basename f.path) with
  | some r => r.file_hash == getFileHash f.content
  | none => false

/-- One iteration of the file loop of `index_all_workflows`: skip when unchanged
(and not forced), count an error on analyzer failure, otherwise upsert. -/
def indexStep (t : Nat) (force : Bool) (acc : List WorkflowRecord × IndexStats)
    (f : FileEntry) : List WorkflowRecord × IndexStats :=
  if !force && hashMatches acc.1 f then
    (acc.1, { acc.2 with skipped := acc.2.skipped + 1 })
  else
    match analyzeWorkflowFile t f with
    | none => (acc.1, { acc.2 with errors := acc.2.errors + 1 })
    | some rec => (upsertStore acc.1 rec, { acc.2 with processed := acc.2.processed + 1 })

/-- Model of `index_all_workflows`: fold the file loop over the enumerated
corpus files starting from the current store and zeroed counters. -/
def indexAllWorkflows (t : Nat) (force : Bool) (files : List FileEntry)
    (store : List WorkflowRecord) : List WorkflowRecord × IndexStats :=
  files.foldl (indexStep t force) (store, ⟨0, 0, 0⟩)

/-- The `json.dumps` escaping of one character, restricted to the two escapes
that can affect the quoted-substring match (`"` and `\`; the remaining escapes
`json.dumps` performs never produce a `"` and are irrelevant to the claims). -/
def escChar (c : Char) : List Char :=
  if c == '"' then ['\\', '"']
  else if c == '\\' then ['\\', '\\']
  else [c]

/-- Escape a character list as inside a `json.dumps` string literal. -/
def escL : List Char → List Char
  | [] => []
  | c :: rest => escChar c ++ escL rest

/-- One quoted item of a dumped JSON string array. -/
def quotedItem (s : String) : List Char :=
  '"' :: (escL s.data ++ ['"'])

/-- Join dumped items with the default `json.dumps` item separator `", "`. -/
def joinCommaL : List (List Char) → List Char
  | [] => []
  | [x] => x
  | x :: y :: rest => x ++ ',' :: ' ' :: joinCommaL (y :: rest)

/-- Model of `json.dumps` on a list of strings, as stored in the `integrations`
column. -/
def dumpsListData (l : List String) : List Char :=
  '[' :: (joinCommaL (l.map quotedItem) ++ [']'])

/-- The SQL `integrations LIKE '%"<service>"%'` test of `search_by_category`:
the service name, in quotes, occurs in the dumped `integrations` column (none of
the fixed service names contains a LIKE wildcard).  SQLite's `LIKE` is
case-insensitive for the ASCII range by default (the source sets no
`case_sensitive_like` pragma), which is modelled by ASCII-lower-folding both the
pattern and the column before the containment test. -/
def likeMatch (ints : List String) (s : String) : Bool :=
  hasSubL (lowerL ('"' :: (s.data ++ ['"']))) (lowerL (dumpsListData ints))

/-- The fixed category → service-list mapping of `get_service_categories`,
in source order. -/
def getServiceCategories : List (String × List String) :=
  [("messaging", ["Telegram", "Discord", "Slack", "WhatsApp", "Mattermost",
                  "Microsoft Teams", "Rocket.Chat"]),
   ("email", ["Gmail", "Mailjet", "Email (IMAP)", "Email (SMTP)", "Outlook"]),
   ("cloud_storage", ["Google Drive", "Google Docs", "Google Sheets", "Dropbox",
                      "OneDrive", "Box"]),
   ("database", ["PostgreSQL", "MySQL", "MongoDB", "Redis", "Airtable", "Notion"]),
   ("project_management", ["Jira", "GitHub", "GitLab", "Trello", "Asana",
                           "Monday.com"]),
   ("ai_ml", ["OpenAI", "Anthropic", "Hugging Face", "CalcsLive"]),
   ("social_media", ["LinkedIn", "Twitter/X", "Facebook", "Instagram"]),
   ("ecommerce", ["Shopify", "Stripe", "PayPal"]),
   ("analytics", ["Google Analytics", "Mixpanel"]),
   ("calendar_tasks", ["Google Calendar", "Google Tasks", "Cal.com", "Calendly"]),
   ("forms", ["Typeform", "Google Forms", "Form Trigger"]),
   ("development", ["Webhook", "HTTP Request", "GraphQL", "Server-Sent Events",
                    "YouTube"])]

/-- Lookup of a category's fixed service list (`category not in categories`
yields `none`). -/
def categoryServices (c : String) : Option (List String) :=
  (getServiceCategories.find? (fun p => p.1 == c)).map (fun p => p.2)

/-- Model of `search_by_category`: unknown categories yield `([], 0)`; otherwise
keep the rows whose dumped `integrations` column LIKE-matches some service of
the category, return the `LIMIT`/`OFFSET` page and the total count.  The SQL
`ORDER BY analyzed_at DESC` is abstracted to the store order; the claims settled
here are order-independent. -/
def searchByCategory (store : List WorkflowRecord) (category : String)
    (limit offset : Nat) : List WorkflowRecord × Nat :=
  match categoryServices category with
  | none => ([], 0)
  | some services =>
    let ms := store.filter (fun r => services.any (fun s => likeMatch r.integrations s))
    ((ms.drop offset).take limit, ms.length)

/-- Modelled from the spec's amended trigger-classification sentence, for
comparison with the source-derived `stepTrigger`: per node, `Webhook` when the
type or name contains "webhook"; otherwise `Scheduled` when the type (only)
contains "cron" or "schedule"; otherwise `Webhook` when the type contains
"trigger" but not "manual" and the running label is still `Manual`; otherwise
the running label is kept. -/
def specTriggerStep (current : String) (n : NodeJson) : String :=
  if hasSubStr (pyLower n.type) "webhook" = true ∨ hasSubStr (pyLower n.name) "webhook" = true then
    "Webhook"
  else if hasSubStr (pyLower n.type) "cron" = true ∨ hasSubStr (pyLower n.type) "schedule" = true then
    "Scheduled"
  else if hasSubStr (pyLower n.type) "trigger" = true ∧ current = "Manual" ∧
      hasSubStr (pyLower n.type) "manual" = false then
    "Webhook"
  else current

/-- A store is clean for a file when re-running the indexer on that file cannot
write: either the stored row under the file's basename carries the file's
current fingerprint, or the file does not parse (so analysis fails and nothing
is written). -/
def CleanFor (store : List WorkflowRecord) (f : FileEntry) : Prop :=
  (∃ r, lookupStore store (basename f.path) = some r ∧ r.file_hash = f.content.raw) ∨
  f.content.parsed = none

/-- Every row of the store is accounted for by some corpus file: its stored
fingerprint is the raw content of a corpus file whose basename is the row key. -/
def StoreFaithful (files : List FileEntry) (store : List WorkflowRecord) : Prop :=
  ∀ bn r, lookupStore store bn = some r →
    ∃ f ∈ files, basename f.path = bn ∧ r.file_hash = f.content.raw

/-- Character membership test on a character list. -/
def hasCh : List Char → Char → Bool
  | [], _ => false
  | c :: rest, d => c == d || hasCh rest d

/-- Syntactic side conditions on a service name under which the SQL LIKE test
coincides with set membership: non-empty, does not start with `,` or `]`, and
contains no `"` or `\`.  Every service name in the fixed category table
satisfies this. -/
def serviceOk (s : String) : Bool :=
  (match s.data with
   | [] => false
   | c :: _ => !(c == ',') && !(c == ']')) &&
  !(hasCh s.data '"') && !(hasCh s.data '\\')

/-- The C1 scenario document: two nodes, a webhook node and a Slack node, no
declared name and no declared description. -/
def c1Doc : WorkflowJson :=
  { id := "", name := "", active := false,
    nodes := [⟨"n8n-nodes-base.webhook", ""⟩, ⟨"n8n-nodes-base.slack", ""⟩],
    tags := [], createdAt := "", updatedAt := "", description := "" }

/-- The record the analyzer derives for the C1 scenario file. -/
def c1Rec : WorkflowRecord :=
  analyzeParsed "1234_Slack_NotifyOnError_Webhook.json" "h" 64 0 c1Doc

/-- Documents with one node and equal node counts, used to witness that
complexity depends only on the node count. -/
def c2DocA : WorkflowJson :=
  { id := "a", name := "", active := false,
    nodes := [⟨"n8n-nodes-base.webhook", ""⟩],
    tags := [], createdAt := "", updatedAt := "", description := "" }

/-- Second single-node document for the C2 witness, differing in every
non-structural field. -/
def c2DocB : WorkflowJson :=
  { id := "b", name := "Other", active := true,
    nodes := [⟨"n8n-nodes-base.slack", "x"⟩],
    tags := [TagJson.str "t"], createdAt := "1", updatedAt := "2", description := "" }

/-- A document whose only nodes are utility nodes from the exclusion table
(conditional, merge, code execution), with service-free names. -/
def c3Nodes : List NodeJson :=
  [⟨"n8n-nodes-base.if", ""⟩, ⟨"n8n-nodes-base.merge", ""⟩, ⟨"n8n-nodes-base.code", ""⟩]

/-- Twenty nodes spanning five distinct detected integrations and carrying no
per-node trigger signal, for the C5 scenario. -/
def c5Nodes : List NodeJson :=
  [⟨"n8n-nodes-base.telegram", ""⟩, ⟨"n8n-nodes-base.slack", ""⟩,
   ⟨"n8n-nodes-base.gmail", ""⟩, ⟨"n8n-nodes-base.github", ""⟩,
   ⟨"n8n-nodes-base.jira", ""⟩] ++
  List.replicate 15 (⟨"n8n-nodes-base.noop", ""⟩ : NodeJson)

/-- An empty parsed workflow document used by the indexing scenarios. -/
def emptyDoc : WorkflowJson :=
  { id := "", name := "", active := false, nodes := [],
    tags := [], createdAt := "", updatedAt := "", description := "" }

/-- Two corpus files in different category folders sharing the basename
`x.json` but with different bytes: the failing input for idempotent
re-indexing. -/
def c6Files : List FileEntry :=
  [⟨"a/x.json", ⟨"r1", some emptyDoc⟩⟩, ⟨"b/x.json", ⟨"r2", some emptyDoc⟩⟩]

/-- The unmodified file of the C7 scenario. -/
def c7File : FileEntry := ⟨"w/x.json", ⟨"r1", some emptyDoc⟩⟩

/-- The untouched second corpus file of the C7 scenario. -/
def c7Other : FileEntry := ⟨"w/y.json", ⟨"r2", some emptyDoc⟩⟩

/-- The modified content of the C7 witness: different bytes, still parseable. -/
def c7NewContent : FileContent := ⟨"r1x", some emptyDoc⟩

/-- A document whose single node type carries an embedded double quote, crafted
so that the stored integrations JSON LIKE-matches `"Slack"` without containing
the service `Slack`. -/
def c8BadDoc : WorkflowJson :=
  { id := "", name := "", active := false,
    nodes := [⟨"n8n-nodes-base.my\"slack", ""⟩],
    tags := [], createdAt := "", updatedAt := "", description := "" }

/-- The analyzed record of the quote-injection document. -/
def c8BadRec : WorkflowRecord := analyzeParsed "w.json" "h" 1 0 c8BadDoc

/-- A document whose single node type `n8n-nodes-base.postgresql` misses the
table (which holds the key `postgres`), producing the quote-free fallback
integration `"Postgresql"` — a case variant of the category service
`"PostgreSQL"`. -/
def c8PgDoc : WorkflowJson :=
  { id := "", name := "", active := false,
    nodes := [⟨"n8n-nodes-base.postgresql", ""⟩],
    tags := [], createdAt := "", updatedAt := "", description := "" }

/-- The analyzed record of the case-variant document. -/
def c8PgRec : WorkflowRecord := analyzeParsed "p.json" "h" 1 0 c8PgDoc

/-- A genuine Slack record for the C8 witness. -/
def c8SlackRec : WorkflowRecord :=
  analyzeParsed "1_Slack.json" "h" 1 0
    { id := "", name := "", active := false,
      nodes := [⟨"n8n-nodes-base.slack", ""⟩],
      tags := [], createdAt := "", updatedAt := "", description := "" }

/-- A corpus file whose bytes do not parse as JSON. -/
def c9BadFile : FileEntry := ⟨"w/bad.json", ⟨"notjson", none⟩⟩

/-- A well-formed corpus file processed after the bad one in the C9 witness. -/
def c9GoodFile : FileEntry := ⟨"w/good.json", ⟨"ok", some emptyDoc⟩⟩

lemma complexityFor_low (n : Nat) : complexityFor n = "low" ↔ n ≤ 5 := by
  unfold complexityFor
  split_ifs with h1 h2
  · simp [h1]
  · constructor
    · intro h; exact absurd h (by decide)
    · intro h; exact absurd h h1
  · constructor
    · intro h; exact absurd h (by decide)
    · intro h; exact absurd h h1

lemma complexityFor_medium (n : Nat) : complexityFor n = "medium" ↔ 5 < n ∧ n ≤ 15 := by
  unfold complexityFor
  split_ifs with h1 h2
  · constructor
    · intro h; exact absurd h (by decide)
    · intro h; omega
  · simp; omega
  · constructor
    · intro h; exact absurd h (by decide)
    · intro h; omega

lemma complexityFor_high (n : Nat) : complexityFor n = "high" ↔ 15 < n := by
  unfold complexityFor
  split_ifs with h1 h2
  · constructor
    · intro h; exact absurd h (by decide)
    · intro h; omega
  · constructor
    · intro h; exact absurd h (by decide)
    · intro h; omega
  · simp; omega

lemma analyzeParsed_complexity (fn fh : String) (size t : Nat) (d : WorkflowJson) :
    (analyzeParsed fn fh size t d).complexity = complexityFor d.nodes.length := rfl

lemma analyzeParsed_node_count (fn fh : String) (size t : Nat) (d : WorkflowJson) :
    (analyzeParsed fn fh size t d).node_count = d.nodes.length := rfl

/-- C2: in every analyzed record, the complexity tier is `"low"` iff the node
count is at most 5, `"medium"` iff it is between 6 and 15, `"high"` iff it
exceeds 15, and it is a pure function of the node count: two analyses agreeing
on `node_count` agree on `complexity` whatever the rest of their inputs. -/
theorem claim_C2_complexity (fn fh : String) (size t : Nat) (d : WorkflowJson) :
    ((analyzeParsed fn fh size t d).complexity = "low" ↔
      (analyzeParsed fn fh size t d).node_count ≤ 5) ∧
    ((analyzeParsed fn fh size t d).complexity = "medium" ↔
      5 < (analyzeParsed fn fh size t d).node_count ∧
        (analyzeParsed fn fh size t d).node_count ≤ 15) ∧
    ((analyzeParsed fn fh size t d).complexity = "high" ↔
      15 < (analyzeParsed fn fh size t d).node_count) ∧
    (∀ (fn2 fh2 : String) (size2 t2 : Nat) (d2 : WorkflowJson),
      (analyzeParsed fn fh size t d).node_count = (analyzeParsed fn2 fh2 size2 t2 d2).node_count →
      (analyzeParsed fn fh size t d).complexity = (analyzeParsed fn2 fh2 size2 t2 d2).complexity) := by
  rw [analyzeParsed_complexity, analyzeParsed_node_count]
  refine ⟨complexityFor_low _, complexityFor_medium _, complexityFor_high _, ?_⟩
  intro fn2 fh2 size2 t2 d2 h
  rw [h]
  rfl

/-- Witness for C2 at concrete inputs: two analyses of unrelated single-node
documents share the complexity tier. -/
theorem claim_C2_witness :
    (analyzeParsed "a.json" "h1" 1 2 c2DocA).complexity =
      (analyzeParsed "b.json" "h2" 3 4 c2DocB).complexity :=
  (claim_C2_complexity "a.json" "h1" 1 2 c2DocA).2.2.2 "b.json" "h2" 3 4 c2DocB (by decide)

/-- C5: whenever more than 10 nodes and more than 3 distinct detected
integrations are present, `analyze_nodes` reports the trigger type `"Complex"`,
whatever the per-node classification computed. -/
theorem claim_C5_complex_escalation (nodes : List NodeJson)
    (h1 : nodes.length > 10)
    (h2 : (nodes.foldl analyzeNode ("Manual", [])).2.length > 3) :
    (analyzeNodes nodes).1 = "Complex" := by
  unfold analyzeNodes
  rw [if_pos ⟨h1, h2⟩]

/-- Witness for C5: the spec scenario of 20 nodes spanning 5 distinct detected
integrations yields `trigger_type = "Complex"`. -/
theorem claim_C5_witness : (analyzeNodes c5Nodes).1 = "Complex" :=
  claim_C5_complex_escalation c5Nodes (by decide) (by decide)

/-- C1 as stated fails on the code: the webhook node maps to the service
`"Webhook"` in the lookup table, so the integration set of the scenario
document also contains `"Webhook"`, not just `"Slack"`. -/
theorem claim_C1_counterexample :
    "Webhook" ∈ c1Rec.integrations ∧ "Webhook" ∉ (["Slack"] : List String) := by decide

/-- C1 amended: the scenario document gets display name
`"Slack Notifyonerror Webhook"`, trigger `"Webhook"`, complexity `"low"`, a
non-empty synthesized description containing `"Slack"`, and integration set
`{"Webhook", "Slack"}` (the webhook node contributes the service `"Webhook"`). -/
theorem claim_C1_amended :
    c1Rec.name = "Slack Notifyonerror Webhook" ∧
    c1Rec.trigger_type = "Webhook" ∧
    c1Rec.complexity = "low" ∧
    c1Rec.integrations = ["Webhook", "Slack"] ∧
    c1Rec.description ≠ "" ∧
    hasSubStr c1Rec.description "Slack" = true := by decide

lemma nodeService_none_of_excluded (n : NodeJson)
    (h1 : pyStartsWith n.type "n8n-nodes-base." = true)
    (h2 : lookupMapping (rawServiceOf n.type) = some none)
    (h3 : nameScan (pyLower n.name) serviceMappings = none) :
    nodeService n = none := by
  simp [nodeService, typeService, mappingGetOrTitle, h1, h2, h3]

lemma foldIntegrations_of_none (nodes : List NodeJson) :
    ∀ (tr : String) (ints : List String), (∀ n ∈ nodes, nodeService n = none) →
    (nodes.foldl analyzeNode (tr, ints)).2 = ints := by
  induction nodes with
  | nil => intro tr ints _; rfl
  | cons n ns ih =>
    intro tr ints h
    rw [List.foldl_cons]
    have hn : analyzeNode (tr, ints) n = (stepTrigger tr n, ints) := by
      simp [analyzeNode, h n (List.mem_cons_self n ns)]
    rw [hn]
    exact ih _ _ (fun g hg => h g (List.mem_cons_of_mem n hg))

lemma analyzeNodes_snd (nodes : List NodeJson) :
    (analyzeNodes nodes).2 = (nodes.foldl analyzeNode ("Manual", [])).2 := by
  simp only [analyzeNodes]
  split <;> rfl

/-- C3 as stated fails on the code: `executeWorkflow` (sub-workflow execution)
is listed in the utility exclusion table, yet its camel-cased key is unreachable
after the lower-casing normalization, so a document consisting of that single
utility node yields the non-empty integration set `["Executeworkflow"]`. -/
theorem claim_C3_counterexample :
    lookupMapping "executeWorkflow" = some none ∧
    (analyzeNodes [⟨"n8n-nodes-base.executeWorkflow", ""⟩]).2 = ["Executeworkflow"] := by decide

/-- C3 amended: a document whose node types all normalize (namespace prefix
stripped, "trigger" stripped, lower-cased) to keys the table maps to the
no-integration sentinel, and whose node names match no service key, yields an
empty integration set. -/
theorem claim_C3_amended (nodes : List NodeJson)
    (h : ∀ n ∈ nodes, pyStartsWith n.type "n8n-nodes-base." = true ∧
      lookupMapping (rawServiceOf n.type) = some none ∧
      nameScan (pyLower n.name) serviceMappings = none) :
    (analyzeNodes nodes).2 = [] := by
  rw [analyzeNodes_snd]
  exact foldIntegrations_of_none nodes "Manual" []
    (fun n hn => nodeService_none_of_excluded n (h n hn).1 (h n hn).2.1 (h n hn).2.2)

/-- Witness for C3 (amended) at the claim's own examples: a document of one
conditional, one merge and one code-execution node has no integrations. -/
theorem claim_C3_witness : (analyzeNodes c3Nodes).2 = [] :=
  claim_C3_amended c3Nodes (by decide)

lemma foldTrigger_fst (nodes : List NodeJson) :
    ∀ (tr : String) (ints : List String),
      (nodes.foldl analyzeNode (tr, ints)).1 = nodes.foldl stepTrigger tr := by
  induction nodes with
  | nil => intro tr ints; rfl
  | cons n ns ih =>
    intro tr ints
    rw [List.foldl_cons, List.foldl_cons]
    exact ih _ _

lemma stepTrigger_eq_spec (tr : String) (n : NodeJson) :
    stepTrigger tr n = specTriggerStep tr n := by
  simp only [stepTrigger, specTriggerStep]
  cases hb1 : hasSubStr (pyLower n.type) "webhook" <;>
    cases hb2 : hasSubStr (pyLower n.name) "webhook" <;>
      cases hb3 : hasSubStr (pyLower n.type) "cron" <;>
        cases hb4 : hasSubStr (pyLower n.type) "schedule" <;>
          cases hb5 : hasSubStr (pyLower n.type) "trigger" <;>
            cases hb6 : hasSubStr (pyLower n.type) "manual" <;>
              by_cases htr : tr = "Manual" <;>
                simp_all

/-- C4 as stated fails on the code: the "cron"/"schedule" test is applied to
the node type only, so a single node whose name (but not type) contains
"schedule" leaves the classification at `"Manual"` instead of `"Scheduled"`. -/
theorem claim_C4_counterexample :
    hasSubStr (pyLower "Schedule Daily") "schedule" = true ∧
    preTriggerType [⟨"x", "Schedule Daily"⟩] = "Manual" ∧
    ("Manual" : String) ≠ "Scheduled" := by decide

/-- C4 amended: the per-node classification is a left-to-right fold of the
rules "webhook in type or name ⇒ Webhook; else cron/schedule in the type only ⇒
Scheduled; else a non-manual trigger type while still Manual ⇒ Webhook", the
last applicable node winning; the integration state never influences it. -/
theorem claim_C4_amended (nodes : List NodeJson) :
    preTriggerType nodes = nodes.foldl specTriggerStep "Manual" := by
  unfold preTriggerType
  rw [foldTrigger_fst]
  exact List.foldl_ext stepTrigger specTriggerStep "Manual"
    (fun a b hb => stepTrigger_eq_spec a b)

lemma titleAux_length (l : List Char) : ∀ b : Bool, (titleAux b l).length = l.length := by
  induction l with
  | nil => intro b; rfl
  | cons c rest ih =>
    intro b
    simp only [titleAux]
    split_ifs <;> simp [ih]

lemma pyTitle_ne_empty (s : String) (h : s ≠ "") : pyTitle s ≠ "" := by
  intro hc
  apply h
  have h1 : titleAux false s.data = [] := congrArg String.data hc
  have h2 : s.data = [] :=
    List.length_eq_zero.mp (by rw [← titleAux_length s.data false, h1]; rfl)
  cases s with
  | mk data => rw [show data = [] from h2]

/-- C10 as stated fails on the code: the normalized key `none` is absent from
the lookup table, yet its title-cased form `"None"` is explicitly filtered out,
so the node is dropped rather than contributing an integration. -/
theorem claim_C10_counterexample :
    lookupMapping (rawServiceOf "n8n-nodes-base.none") = none ∧
    pyTitle (rawServiceOf "n8n-nodes-base.none") = "None" ∧
    (analyzeNodes [⟨"n8n-nodes-base.none", ""⟩]).2 = [] := by decide

/-- C10 amended: for a node of the `n8n-nodes-base.` namespace whose normalized
key is non-empty and absent from the lookup table, whose title-cased key is not
the filtered literal `"None"`, and whose name matches no table entry, the
analyzer adds the title-cased normalized key itself to the integrations —
an identifier outside the canonical service vocabulary. -/
theorem claim_C10_amended (n : NodeJson)
    (h1 : pyStartsWith n.type "n8n-nodes-base." = true)
    (h2 : rawServiceOf n.type ≠ "")
    (h3 : lookupMapping (rawServiceOf n.type) = none)
    (h4 : pyTitle (rawServiceOf n.type) ≠ "None")
    (h5 : nameScan (pyLower n.name) serviceMappings = none) :
    (analyzeNodes [n]).2 = [pyTitle (rawServiceOf n.type)] := by
  have hne := pyTitle_ne_empty _ h2
  have hsv : nodeService n = some (pyTitle (rawServiceOf n.type)) := by
    simp [nodeService, typeService, mappingGetOrTitle, h1, h2, h3, h5, hne, h4, beq_iff_eq]
  rw [analyzeNodes_snd]
  simp [List.foldl, analyzeNode, hsv, addIntegration]

/-- Witness for C10 (amended) on the claim's own example: `httpRequest`
normalizes to `httprequest`, missing the camel-cased table key, and yields the
out-of-vocabulary integration `"Httprequest"` — never the table's
`"HTTP Request"`. -/
theorem claim_C10_witness :
    (analyzeNodes [⟨"n8n-nodes-base.httpRequest", ""⟩]).2 =
      [pyTitle (rawServiceOf "n8n-nodes-base.httpRequest")] ∧
    pyTitle (rawServiceOf "n8n-nodes-base.httpRequest") = "Httprequest" ∧
    ("Httprequest" : String) ≠ "HTTP Request" ∧
    lookupMapping "httpRequest" = some (some "HTTP Request") :=
  ⟨claim_C10_amended ⟨"n8n-nodes-base.httpRequest", ""⟩ (by decide) (by decide)
      (by decide) (by decide) (by decide),
   by decide, by decide, by decide⟩

/-- C9: a file whose bytes do not parse, and which the change gate does not
skip, contributes exactly an error-counter increment: the store is untouched
(no partial record) and the fold continues with the remaining files from that
state — one bad document never aborts the run. -/
theorem claim_C9_error_containment (t : Nat) (store : List WorkflowRecord)
    (stats : IndexStats) (f : FileEntry) (rest : List FileEntry)
    (hbad : f.content.parsed = none)
    (hnoskip : hashMatches store f = false) :
    indexStep t false (store, stats) f =
      (store, ⟨stats.processed, stats.skipped, stats.errors + 1⟩) ∧
    (f :: rest).foldl (indexStep t false) (store, stats) =
      rest.foldl (indexStep t false) (store, ⟨stats.processed, stats.skipped, stats.errors + 1⟩) := by
  have h1 : indexStep t false (store, stats) f =
      (store, ⟨stats.processed, stats.skipped, stats.errors + 1⟩) := by
    obtain ⟨p, s, e⟩ := stats
    simp [indexStep, hnoskip, analyzeWorkflowFile, hbad]
  exact ⟨h1, by rw [List.foldl_cons, h1]⟩

/-- Witness for C9: a concrete two-file run where the first file is malformed
and the second is processed from the untouched store. -/
theorem claim_C9_witness :
    indexStep 0 false ([], ⟨0, 0, 0⟩) c9BadFile = ([], ⟨0, 0, 1⟩) ∧
    ([c9BadFile, c9GoodFile].foldl (indexStep 0 false) ([], ⟨0, 0, 0⟩) =
      [c9GoodFile].foldl (indexStep 0 false) ([], ⟨0, 0, 1⟩)) :=
  claim_C9_error_containment 0 [] ⟨0, 0, 0⟩ c9BadFile [c9GoodFile] rfl rfl

/-- C6 evaluated at its failing input: two corpus files in different category
folders share the basename `x.json` with different bytes; because the store is
keyed by basename (not the spec's corpus-root-relative filename), the second
`index_all(force=false)` run with an unchanged corpus re-analyzes both files
(`processed = 2`, not `0`), thrashing the shared row. -/
theorem claim_C6_bug_eval :
    basename "a/x.json" = basename "b/x.json" ∧
    (indexAllWorkflows 1 false c6Files (indexAllWorkflows 0 false c6Files []).1).2.processed = 2 := by
  decide

lemma lookup_upsert_self (store : List WorkflowRecord) (rec : WorkflowRecord) :
    lookupStore (upsertStore store rec) rec.filename = some rec := by
  induction store with
  | nil => simp [upsertStore, lookupStore]
  | cons r rest ih =>
    by_cases h : r.filename = rec.filename
    · simp [upsertStore, h, lookupStore]
    · simp [upsertStore, h, lookupStore, ih]

lemma lookup_upsert_ne (store : List WorkflowRecord) (rec : WorkflowRecord)
    (bn : String) (h : bn ≠ rec.filename) :
    lookupStore (upsertStore store rec) bn = lookupStore store bn := by
  induction store with
  | nil => simp [upsertStore, lookupStore, Ne.symm h]
  | cons r rest ih =>
    simp only [upsertStore]
    by_cases hr : r.filename = rec.filename
    · rw [if_pos hr]
      simp only [lookupStore]
      rw [if_neg (Ne.symm h), if_neg (fun hc : r.filename = bn => h (hc.symm.trans hr))]
    · rw [if_neg hr]
      simp only [lookupStore]
      by_cases hb : r.filename = bn
      · rw [if_pos hb, if_pos hb]
      · rw [if_neg hb, if_neg hb]; exact ih

lemma lookup_upsert_cases (store : List WorkflowRecord) (rec r2 : WorkflowRecord)
    (bn : String) (h : lookupStore (upsertStore store rec) bn = some r2) :
    (bn = rec.filename ∧ r2 = rec) ∨ (bn ≠ rec.filename ∧ lookupStore store bn = some r2) := by
  by_cases hbn : bn = rec.filename
  · subst hbn
    rw [lookup_upsert_self] at h
    exact Or.inl ⟨rfl, (Option.some.injEq _ _ ▸ h).symm⟩
  · rw [lookup_upsert_ne store rec bn hbn] at h
    exact Or.inr ⟨hbn, h⟩

lemma analyzeWorkflowFile_fields (t : Nat) (f : FileEntry) (rec : WorkflowRecord)
    (h : analyzeWorkflowFile t f = some rec) :
    rec.filename = basename f.path ∧ rec.file_hash = f.content.raw := by
  unfold analyzeWorkflowFile at h
  cases hp : f.content.parsed with
  | none => rw [hp] at h; exact absurd h (by simp)
  | some d =>
    rw [hp] at h
    have := (Option.some.injEq _ _ ▸ h)
    rw [← this]
    exact ⟨rfl, rfl⟩

lemma hashMatches_of_clean (store : List WorkflowRecord) (f : FileEntry)
    (r : WorkflowRecord) (hl : lookupStore store (basename f.path) = some r)
    (hh : r.file_hash = f.content.raw) : hashMatches store f = true := by
  simp [hashMatches, hl, getFileHash, hh]

lemma indexStep_skip (t : Nat) (store : List WorkflowRecord) (stats : IndexStats)
    (f : FileEntry) (hm : hashMatches store f = true) :
    indexStep t false (store, stats) f = (store, { stats with skipped := stats.skipped + 1 }) := by
  simp [indexStep, hm]

lemma indexStep_badparse (t : Nat) (store : List WorkflowRecord) (stats : IndexStats)
    (f : FileEntry) (hm : hashMatches store f = false) (hp : f.content.parsed = none) :
    indexStep t false (store, stats) f = (store, { stats with errors := stats.errors + 1 }) := by
  simp [indexStep, hm, analyzeWorkflowFile, hp]

lemma clean_fold (t : Nat) (files : List FileEntry) :
    ∀ (store : List WorkflowRecord) (stats : IndexStats),
      (∀ f ∈ files, CleanFor store f) →
      (files.foldl (indexStep t false) (store, stats)).1 = store ∧
      (files.foldl (indexStep t false) (store, stats)).2.processed = stats.processed := by
  induction files with
  | nil => intro store stats _; exact ⟨rfl, rfl⟩
  | cons f fs ih =>
    intro store stats h
    have hf := h f (List.mem_cons_self f fs)
    have hfs : ∀ g ∈ fs, CleanFor store g := fun g hg => h g (List.mem_cons_of_mem f hg)
    rw [List.foldl_cons]
    cases hm : hashMatches store f with
    | true =>
      rw [indexStep_skip t store stats f hm]
      obtain ⟨ha, hb⟩ := ih store { stats with skipped := stats.skipped + 1 } hfs
      exact ⟨ha, by rw [hb]⟩
    | false =>
      have hp : f.content.parsed = none := by
        cases hf with
        | inl hcl =>
          obtain ⟨r, hl, hh⟩ := hcl
          rw [hashMatches_of_clean store f r hl hh] at hm
          exact absurd hm (by simp)
        | inr hr => exact hr
      rw [indexStep_badparse t store stats f hm hp]
      obtain ⟨ha, hb⟩ := ih store { stats with errors := stats.errors + 1 } hfs
      exact ⟨ha, by rw [hb]⟩

lemma fold_preserve_hash (t : Nat) (force : Bool) (run : List FileEntry) (bn x : String) :
    ∀ (store : List WorkflowRecord) (stats : IndexStats) (r : WorkflowRecord),
      (∀ g ∈ run, basename g.path = bn → g.content.raw = x) →
      lookupStore store bn = some r → r.file_hash = x →
      ∃ r2, lookupStore (run.foldl (indexStep t force) (store, stats)).1 bn = some r2 ∧
        r2.file_hash = x := by
  induction run with
  | nil => intro store stats r _ hl hh; exact ⟨r, hl, hh⟩
  | cons g gs ih =>
    intro store stats r h hl hh
    have hgs : ∀ g2 ∈ gs, basename g2.path = bn → g2.content.raw = x :=
      fun g2 hg2 => h g2 (List.mem_cons_of_mem g hg2)
    rw [List.foldl_cons]
    unfold indexStep
    split
    · exact ih store _ r hgs hl hh
    · cases ha : analyzeWorkflowFile t g with
      | none => simp only [ha]; exact ih store _ r hgs hl hh
      | some rec =>
        simp only [ha]
        obtain ⟨hfn, hfh⟩ := analyzeWorkflowFile_fields t g rec ha
        by_cases hbn : basename g.path = bn
        · have hlu : lookupStore (upsertStore store rec) bn = some rec := by
            rw [← hfn, ← hbn] at *
            exact lookup_upsert_self store rec
          exact ih (upsertStore store rec) _ rec hgs hlu (by rw [hfh, h g (List.mem_cons_self g gs) hbn])
        · have hlu : lookupStore (upsertStore store rec) bn = some r := by
            rw [lookup_upsert_ne store rec bn (by rw [hfn]; exact fun hc => hbn hc.symm)]
            exact hl
          exact ih (upsertStore store rec) _ r hgs hlu hh

lemma fold_faithful (t : Nat) (force : Bool) (run : List FileEntry) (files : List FileEntry) :
    ∀ (store : List WorkflowRecord) (stats : IndexStats),
      (∀ g ∈ run, g ∈ files) → StoreFaithful files store →
      StoreFaithful files (run.foldl (indexStep t force) (store, stats)).1 := by
  induction run with
  | nil => intro store stats _ hs; exact hs
  | cons g gs ih =>
    intro store stats hmem hs
    have hgs : ∀ g2 ∈ gs, g2 ∈ files := fun g2 hg2 => hmem g2 (List.mem_cons_of_mem g hg2)
    rw [List.foldl_cons]
    unfold indexStep
    split
    · exact ih store _ hgs hs
    · cases ha : analyzeWorkflowFile t g with
      | none => simp only [ha]; exact ih store _ hgs hs
      | some rec =>
        simp only [ha]
        obtain ⟨hfn, hfh⟩ := analyzeWorkflowFile_fields t g rec ha
        refine ih (upsertStore store rec) _ hgs ?_
        intro bn r hl
        cases lookup_upsert_cases store rec r bn hl with
        | inl hcase =>
          exact ⟨g, hmem g (List.mem_cons_self g gs),
            (hcase.1.trans hfn).symm, by rw [hcase.2, hfh]⟩
        | inr hcase => exact hs bn r hcase.2

lemma run_makes_clean (t : Nat) (force : Bool) (files : List FileEntry) :
    ∀ (store : List WorkflowRecord) (stats : IndexStats),
      (∀ f ∈ files, ∀ g ∈ files, basename f.path = basename g.path →
        f.content.raw = g.content.raw) →
      ∀ f ∈ files, CleanFor (files.foldl (indexStep t force) (store, stats)).1 f := by
  induction files with
  | nil => intro store stats _ f hf; exact absurd hf (List.not_mem_nil f)
  | cons g gs ih =>
    intro store stats hsame f hf
    have hsame2 : ∀ a ∈ gs, ∀ b ∈ gs, basename a.path = basename b.path →
        a.content.raw = b.content.raw :=
      fun a ha b hb => hsame a (List.mem_cons_of_mem g ha) b (List.mem_cons_of_mem g hb)
    have hpres : ∀ h2 ∈ gs, basename h2.path = basename g.path → h2.content.raw = g.content.raw :=
      fun h2 hh2 => hsame h2 (List.mem_cons_of_mem g hh2) g (List.mem_cons_self g gs)
    rw [List.foldl_cons]
    cases List.mem_cons.mp hf with
    | inr hmem =>
      exact ih (indexStep t force (store, stats) g).1 (indexStep t force (store, stats) g).2
        hsame2 f hmem
    | inl heq =>
      subst heq
      cases hp : f.content.parsed with
      | none => exact Or.inr hp
      | some d =>
        have hstep : ∃ r, lookupStore (indexStep t force (store, stats) f).1 (basename f.path) = some r ∧
            r.file_hash = f.content.raw := by
          unfold indexStep
          split
          · rename_i hsk
            have hm : hashMatches store f = true := by
              cases hmm : hashMatches store f
              · rw [hmm] at hsk; simp at hsk
              · rfl
            unfold hashMatches at hm
            cases hl : lookupStore store (basename f.path) with
            | none => rw [hl] at hm; exact absurd hm (by simp)
            | some r =>
              rw [hl] at hm
              exact ⟨r, rfl, by simpa [getFileHash] using hm⟩
          · cases ha : analyzeWorkflowFile t f with
            | none =>
              unfold analyzeWorkflowFile at ha
              rw [hp] at ha
              exact absurd ha (by simp)
            | some rec =>
              simp only [ha]
              obtain ⟨hfn, hfh⟩ := analyzeWorkflowFile_fields t f rec ha
              exact ⟨rec, by rw [← hfn]; exact lookup_upsert_self store rec, hfh⟩
        obtain ⟨r, hl, hh⟩ := hstep
        obtain ⟨r2, hl2, hh2⟩ := fold_preserve_hash t force gs (basename f.path) f.content.raw
          (indexStep t force (store, stats) f).1 (indexStep t force (store, stats) f).2 r
          hpres hl hh
        exact Or.inl ⟨r2, hl2, hh2⟩

/-- C7 as stated fails on the code: modifying the single corpus file's byte so
that it no longer parses makes the second run record an error
(`processed = 0, errors = 1`) instead of the claimed `processed = 1`. -/
theorem claim_C7_counterexample :
    ("ab" : String) ≠ "aa" ∧
    (indexAllWorkflows 1 false [⟨"w/x.json", ⟨"ab", none⟩⟩]
        (indexAllWorkflows 0 false [⟨"w/x.json", ⟨"aa", some emptyDoc⟩⟩] []).1).2 =
      ⟨0, 0, 1⟩ := by decide

/-- C7 amended: starting from the catalog built by a first run over a corpus
with pairwise-distinct basenames, changing the bytes of exactly one file to new
content that still parses makes the second `index_all(force=false)` run process
exactly one file, and every row under any other basename — `last_analyzed_at`
included — is left exactly as the first run wrote it. -/
theorem claim_C7_amended (t1 t2 : Nat) (A B : List FileEntry) (f0 : FileEntry)
    (newc : FileContent) (w : WorkflowJson)
    (hnodup : ((A ++ f0 :: B).map fun g => basename g.path).Nodup)
    (hraw : newc.raw ≠ f0.content.raw)
    (hparse : newc.parsed = some w) :
    (indexAllWorkflows t2 false (A ++ (⟨f0.path, newc⟩ : FileEntry) :: B)
        (indexAllWorkflows t1 false (A ++ f0 :: B) []).1).2.processed = 1 ∧
    ∀ bn, bn ≠ basename f0.path →
      lookupStore (indexAllWorkflows t2 false (A ++ (⟨f0.path, newc⟩ : FileEntry) :: B)
          (indexAllWorkflows t1 false (A ++ f0 :: B) []).1).1 bn =
        lookupStore (indexAllWorkflows t1 false (A ++ f0 :: B) []).1 bn := by
  have hf0mem : f0 ∈ A ++ f0 :: B := List.mem_append_right _ (List.mem_cons_self _ _)
  have hpair : (A ++ f0 :: B).Pairwise (fun a b => basename a.path ≠ basename b.path) :=
    List.pairwise_map.mp hnodup
  have hsame : ∀ a ∈ A ++ f0 :: B, ∀ b ∈ A ++ f0 :: B,
      basename a.path = basename b.path → a.content.raw = b.content.raw := by
    intro a ha b hb heq
    by_cases hab : a = b
    · rw [hab]
    · exact absurd heq (List.Pairwise.forall (fun x y hxy => Ne.symm hxy) hpair ha hb hab)
  have hclean1 : ∀ f ∈ A ++ f0 :: B,
      CleanFor (indexAllWorkflows t1 false (A ++ f0 :: B) []).1 f :=
    run_makes_clean t1 false (A ++ f0 :: B) [] ⟨0, 0, 0⟩ hsame
  have hfaith : StoreFaithful (A ++ f0 :: B) (indexAllWorkflows t1 false (A ++ f0 :: B) []).1 :=
    fold_faithful t1 false (A ++ f0 :: B) (A ++ f0 :: B) [] ⟨0, 0, 0⟩ (fun g hg => hg)
      (fun bn r h => absurd h (by simp [lookupStore]))
  have hbnB : ∀ g ∈ B, basename g.path ≠ basename f0.path := by
    have h1 : ((A ++ f0 :: B).map fun g => basename g.path) =
        (A.map fun g => basename g.path) ++ basename f0.path ::
          (B.map fun g => basename g.path) := by
      simp
    rw [h1] at hnodup
    have h2 := hnodup.of_append_right
    have h3 : basename f0.path ∉ (B.map fun g => basename g.path) :=
      (List.nodup_cons.mp h2).1
    intro g hg hc
    exact h3 (hc ▸ List.mem_map_of_mem _ hg)
  -- abbreviations for the second run
  set s1 := (indexAllWorkflows t1 false (A ++ f0 :: B) []).1 with hs1
  set f1 : FileEntry := ⟨f0.path, newc⟩ with hf1
  set pA := A.foldl (indexStep t2 false) (s1, (⟨0, 0, 0⟩ : IndexStats)) with hpA
  obtain ⟨hA1, hA2⟩ := clean_fold t2 A s1 ⟨0, 0, 0⟩
    (fun g hg => hclean1 g (List.mem_append_left _ hg))
  have hmf1 : hashMatches pA.1 f1 = false := by
    rw [hA1]
    unfold hashMatches
    cases hl : lookupStore s1 (basename f1.path) with
    | none => rfl
    | some r =>
      obtain ⟨g, hg, hgbn, hgh⟩ := hfaith (basename f1.path) r hl
      have hgf0 : g.content.raw = f0.content.raw := hsame g hg f0 hf0mem hgbn
      have hne : r.file_hash ≠ getFileHash f1.content := by
        rw [hgh, hgf0]
        exact fun hc => hraw hc.symm
      exact beq_eq_false_iff_ne.mpr hne
  have hstep1 : indexStep t2 false pA f1 =
      (upsertStore pA.1
        (analyzeParsed (basename f1.path) (getFileHash f1.content) (fileSize f1.content) t2 w),
       { pA.2 with processed := pA.2.processed + 1 }) := by
    simp [indexStep, hmf1, analyzeWorkflowFile, hf1, hparse]
  set rec2 := analyzeParsed (basename f1.path) (getFileHash f1.content) (fileSize f1.content) t2 w
    with hrec2
  have hrec2fn : rec2.filename = basename f0.path := rfl
  have hcleanB : ∀ g ∈ B, CleanFor (upsertStore pA.1 rec2) g := by
    intro g hg
    cases hclean1 g (List.mem_append_right _ (List.mem_cons_of_mem _ hg)) with
    | inr hp => exact Or.inr hp
    | inl hex =>
      obtain ⟨r, hl, hh⟩ := hex
      refine Or.inl ⟨r, ?_, hh⟩
      rw [hA1, lookup_upsert_ne s1 rec2 _ (by rw [hrec2fn]; exact hbnB g hg)]
      exact hl
  obtain ⟨hB1, hB2⟩ := clean_fold t2 B (upsertStore pA.1 rec2)
    { pA.2 with processed := pA.2.processed + 1 } hcleanB
  constructor
  · show ((A ++ f1 :: B).foldl (indexStep t2 false) (s1, ⟨0, 0, 0⟩)).2.processed = 1
    rw [List.foldl_append, List.foldl_cons, ← hpA, hstep1, hB2]
    have hA0 : pA.2.processed = 0 := by rw [hpA]; exact hA2
    simp [hA0]
  · intro bn hbn
    show lookupStore ((A ++ f1 :: B).foldl (indexStep t2 false) (s1, ⟨0, 0, 0⟩)).1 bn =
      lookupStore s1 bn
    rw [List.foldl_append, List.foldl_cons, ← hpA, hstep1, hB1, hA1,
      lookup_upsert_ne s1 rec2 bn (by rw [hrec2fn]; exact hbn)]

/-- Witness for C7 (amended): a two-file corpus whose first file is modified to
different, still-valid content; the second run processes one file and the
record of `y.json` is untouched. -/
theorem claim_C7_witness :
    (indexAllWorkflows 1 false ([] ++ (⟨c7File.path, c7NewContent⟩ : FileEntry) :: [c7Other])
        (indexAllWorkflows 0 false ([] ++ c7File :: [c7Other]) []).1).2.processed = 1 ∧
    lookupStore (indexAllWorkflows 1 false
          ([] ++ (⟨c7File.path, c7NewContent⟩ : FileEntry) :: [c7Other])
          (indexAllWorkflows 0 false ([] ++ c7File :: [c7Other]) []).1).1 "y.json" =
      lookupStore (indexAllWorkflows 0 false ([] ++ c7File :: [c7Other]) []).1 "y.json" := by
  have h := claim_C7_amended 0 1 [] [c7Other] c7File c7NewContent emptyDoc
    (by decide) (by decide) rfl
  exact ⟨h.1, h.2 "y.json" (by decide)⟩

lemma isPre_iff (p : List Char) : ∀ s, isPre p s = true ↔ ∃ r, s = p ++ r := by
  induction p with
  | nil =>
    intro s
    simp [isPre]
  | cons a as ih =>
    intro s
    cases s with
    | nil => simp [isPre]
    | cons b bs =>
      simp only [isPre, Bool.and_eq_true, beq_iff_eq]
      constructor
      · rintro ⟨hab, h⟩
        obtain ⟨r, hr⟩ := (ih bs).mp h
        subst hab
        exact ⟨r, by rw [hr]; rfl⟩
      · rintro ⟨r, hr⟩
        injection hr with h1 h2
        exact ⟨h1.symm, (ih bs).mpr ⟨r, h2⟩⟩

lemma hasSubL_iff (p : List Char) : ∀ t, hasSubL p t = true ↔ ∃ t1 t2, t = t1 ++ (p ++ t2) := by
  intro t
  induction t with
  | nil =>
    simp only [hasSubL]
    constructor
    · intro h
      obtain ⟨r, hr⟩ := (isPre_iff p []).mp h
      obtain ⟨hp, hr2⟩ := List.append_eq_nil.mp hr.symm
      exact ⟨[], [], by rw [hp]; rfl⟩
    · rintro ⟨t1, t2, h⟩
      have h2 := List.append_eq_nil.mp h.symm
      have h3 := List.append_eq_nil.mp h2.2
      rw [h3.1]
      rfl
  | cons c t ih =>
    simp only [hasSubL, Bool.or_eq_true]
    constructor
    · rintro (h | h)
      · obtain ⟨r, hr⟩ := (isPre_iff p (c :: t)).mp h
        exact ⟨[], r, by rw [hr]; rfl⟩
      · obtain ⟨t1, t2, h2⟩ := ih.mp h
        exact ⟨c :: t1, t2, by rw [h2]; rfl⟩
    · rintro ⟨t1, t2, h⟩
      cases t1 with
      | nil =>
        exact Or.inl ((isPre_iff p (c :: t)).mpr ⟨t2, by simpa using h⟩)
      | cons d t1' =>
        injection h with h1 h2
        exact Or.inr (ih.mpr ⟨t1', t2, h2⟩)

lemma first_quote (b : List Char) (hb : ∀ c ∈ b, c ≠ '"') :
    ∀ (a r r2 : List Char), a ++ '"' :: r = b ++ '"' :: r2 →
      (a = b ∧ r = r2) ∨ ∃ a2, a = b ++ '"' :: a2 ∧ a2 ++ '"' :: r = r2 := by
  induction b with
  | nil =>
    intro a r r2 h
    cases a with
    | nil =>
      simp only [List.nil_append] at h
      injection h with _ h2
      exact Or.inl ⟨rfl, h2⟩
    | cons c a2 =>
      simp only [List.cons_append, List.nil_append] at h
      injection h with h1 h2
      exact Or.inr ⟨a2, by rw [h1]; rfl, h2⟩
  | cons d b2 ih =>
    intro a r r2 h
    have hb2 : ∀ c ∈ b2, c ≠ '"' := fun c hc => hb c (List.mem_cons_of_mem d hc)
    cases a with
    | nil =>
      simp only [List.nil_append, List.cons_append] at h
      injection h with h1 _
      exact absurd h1.symm (hb d (List.mem_cons_self d b2))
    | cons c a2 =>
      simp only [List.cons_append] at h
      injection h with h1 h2
      cases ih hb2 a2 r r2 h2 with
      | inl hc => exact Or.inl ⟨by rw [h1, hc.1], hc.2⟩
      | inr hc =>
        obtain ⟨a3, ha3, hr⟩ := hc
        exact Or.inr ⟨a3, by rw [h1, ha3]; rfl, hr⟩

lemma escL_qfree (l : List Char) (h : ∀ c ∈ l, c ≠ '"') : ∀ c ∈ escL l, c ≠ '"' := by
  induction l with
  | nil => intro c hc; exact absurd hc (List.not_mem_nil c)
  | cons d rest ih =>
    intro c hc
    have hd : d ≠ '"' := h d (List.mem_cons_self d rest)
    have hrest : ∀ c2 ∈ rest, c2 ≠ '"' := fun c2 hc2 => h c2 (List.mem_cons_of_mem d hc2)
    simp only [escL] at hc
    cases List.mem_append.mp hc with
    | inl h1 =>
      by_cases hbs : d = '\\'
      · subst hbs
        have : c ∈ ['\\', '\\'] := by simpa [escChar] using h1
        have hcd : c = '\\' := by
          cases List.mem_cons.mp this with
          | inl hx => exact hx
          | inr hx => simpa using hx
        rw [hcd]
        decide
      · have : c ∈ [d] := by simpa [escChar, hd, hbs] using h1
        rw [List.mem_singleton.mp this]
        exact hd
    | inr h2 => exact ih hrest c h2

lemma escL_clean_eq : ∀ (v w : List Char), escL v = w → (∀ c ∈ w, c ≠ '\\') → v = w := by
  intro v
  induction v with
  | nil =>
    intro w h _
    rw [← h]
    rfl
  | cons c rest ih =>
    intro w h hw
    by_cases hq : c = '"'
    · exfalso
      apply hw '\\' ?_ rfl
      rw [← h]
      subst hq
      simp [escL, escChar]
    · by_cases hbs : c = '\\'
      · exfalso
        apply hw '\\' ?_ rfl
        rw [← h]
        subst hbs
        simp [escL, escChar]
      · have hesc : escChar c = [c] := by simp [escChar, hq, hbs]
        simp only [escL, hesc, List.singleton_append] at h
        cases w with
        | nil => exact absurd h (by simp)
        | cons d w2 =>
          injection h with ha hb2
          rw [ha, ih w2 hb2 (fun x hx => hw x (List.mem_cons_of_mem d hx))]

lemma hasCh_iff (l : List Char) (d : Char) : hasCh l d = true ↔ d ∈ l := by
  induction l with
  | nil => simp [hasCh]
  | cons c rest ih =>
    simp only [hasCh, Bool.or_eq_true, beq_iff_eq, ih, List.mem_cons]
    constructor
    · rintro (h | h)
      · exact Or.inl h.symm
      · exact Or.inr h
    · rintro (h | h)
      · exact Or.inl h.symm
      · exact Or.inr h

lemma serviceOk_props (s : String) (hs : serviceOk s = true) :
    (∀ c ∈ s.data, c ≠ '"') ∧ (∀ c ∈ s.data, c ≠ '\\') ∧
    ∀ c0 rest, s.data = c0 :: rest → c0 ≠ ',' ∧ c0 ≠ ']' := by
  unfold serviceOk at hs
  rw [Bool.and_eq_true, Bool.and_eq_true] at hs
  obtain ⟨⟨h1, h2⟩, h3⟩ := hs
  rw [Bool.not_eq_true'] at h2 h3
  refine ⟨?_, ?_, ?_⟩
  · intro c hc heq
    subst heq
    rw [(hasCh_iff s.data '"').mpr hc] at h2
    simp at h2
  · intro c hc heq
    subst heq
    rw [(hasCh_iff s.data '\\').mpr hc] at h3
    simp at h3
  · intro c0 rest heq
    rw [heq] at h1
    rw [Bool.and_eq_true, Bool.not_eq_true', Bool.not_eq_true'] at h1
    exact ⟨fun hc => by rw [hc] at h1; simpa using h1.1,
           fun hc => by rw [hc] at h1; simpa using h1.2⟩

lemma quoted_match_aux (s : String) (hs : serviceOk s = true) :
    ∀ (l : List String), (∀ v ∈ l, ∀ c ∈ v.data, c ≠ '"') →
    ∀ (t1 t2 : List Char),
      t1 ++ '"' :: (s.data ++ '"' :: t2) = joinCommaL (l.map quotedItem) ++ [']'] →
      s ∈ l := by
  intro l
  induction l with
  | nil =>
    intro _ t1 t2 h
    exfalso
    simp only [List.map_nil, joinCommaL, List.nil_append] at h
    cases t1 with
    | nil =>
      simp only [List.nil_append] at h
      injection h with h1 _
      exact absurd h1 (by decide)
    | cons c t1' =>
      simp only [List.cons_append] at h
      injection h with _ h2
      exact absurd h2 (by simp)
  | cons v rest ih =>
    intro hl t1 t2 h
    have hvq : ∀ c ∈ v.data, c ≠ '"' := hl v (List.mem_cons_self v rest)
    have hrest : ∀ u ∈ rest, ∀ c ∈ u.data, c ≠ '"' :=
      fun u hu => hl u (List.mem_cons_of_mem v hu)
    have hescq : ∀ c ∈ escL v.data, c ≠ '"' := escL_qfree v.data hvq
    cases rest with
    | nil =>
      have hrhs : joinCommaL ([v].map quotedItem) ++ [']'] =
          '"' :: (escL v.data ++ '"' :: [']']) := by
        simp [joinCommaL, quotedItem]
      rw [hrhs] at h
      cases t1 with
      | nil =>
        simp only [List.nil_append] at h
        injection h with _ h2
        cases first_quote (escL v.data) hescq s.data t2 [']'] h2 with
        | inl hc =>
          have hv : v.data = s.data :=
            escL_clean_eq v.data s.data hc.1.symm
              (fun c hc2 => (serviceOk_props s hs).2.1 c (hc.1 ▸ hc2))
          have hvs : v = s := by
            cases v with
            | mk vd =>
              cases s with
              | mk sd => rw [show vd = sd from hv]
          exact List.mem_singleton.mpr hvs.symm
        | inr hc =>
          obtain ⟨a2, ha2, _⟩ := hc
          exact absurd rfl ((serviceOk_props s hs).1 '"'
            (ha2 ▸ List.mem_append_right _ (List.mem_cons_self _ _)))
      | cons c t1' =>
        simp only [List.cons_append] at h
        injection h with h1 h2
        cases first_quote (escL v.data) hescq t1' (s.data ++ '"' :: t2) [']'] h2 with
        | inl hc =>
          exfalso
          have h3 := hc.2
          cases hsd : s.data with
          | nil =>
            rw [hsd] at h3
            simp only [List.nil_append] at h3
            injection h3 with h4 _
            exact absurd h4 (by decide)
          | cons c0 s2 =>
            rw [hsd] at h3
            simp only [List.cons_append] at h3
            injection h3 with _ h5
            exact absurd h5 (by simp)
        | inr hc =>
          obtain ⟨a2, _, hr⟩ := hc
          exfalso
          cases a2 with
          | nil =>
            simp only [List.nil_append] at hr
            injection hr with _ h5
            exact absurd h5 (by simp)
          | cons d a3 =>
            simp only [List.cons_append] at hr
            injection hr with _ h5
            exact absurd h5 (by simp)
    | cons v2 rest2 =>
      have hrhs : joinCommaL ((v :: v2 :: rest2).map quotedItem) ++ [']'] =
          '"' :: (escL v.data ++ '"' :: ',' :: ' ' ::
            (joinCommaL ((v2 :: rest2).map quotedItem) ++ [']'])) := by
        simp [joinCommaL, quotedItem]
      rw [hrhs] at h
      cases t1 with
      | nil =>
        simp only [List.nil_append] at h
        injection h with _ h2
        cases first_quote (escL v.data) hescq s.data t2
            (',' :: ' ' :: (joinCommaL ((v2 :: rest2).map quotedItem) ++ [']'])) h2 with
        | inl hc =>
          have hv : v.data = s.data :=
            escL_clean_eq v.data s.data hc.1.symm
              (fun c hc2 => (serviceOk_props s hs).2.1 c (hc.1 ▸ hc2))
          have hvs : v = s := by
            cases v with
            | mk vd =>
              cases s with
              | mk sd => rw [show vd = sd from hv]
          rw [← hvs]
          exact List.mem_cons_self v (v2 :: rest2)
        | inr hc =>
          obtain ⟨a2, ha2, _⟩ := hc
          exact absurd rfl ((serviceOk_props s hs).1 '"'
            (ha2 ▸ List.mem_append_right _ (List.mem_cons_self _ _)))
      | cons c t1' =>
        simp only [List.cons_append] at h
        injection h with h1 h2
        cases first_quote (escL v.data) hescq t1' (s.data ++ '"' :: t2)
            (',' :: ' ' :: (joinCommaL ((v2 :: rest2).map quotedItem) ++ [']'])) h2 with
        | inl hc =>
          exfalso
          cases hsd : s.data with
          | nil =>
            rw [hsd] at hc
            have h3 := hc.2
            simp only [List.nil_append] at h3
            injection h3 with h4 _
            exact absurd h4 (by decide)
          | cons c0 s2 =>
            rw [hsd] at hc
            have h3 := hc.2
            simp only [List.cons_append] at h3
            injection h3 with h4 _
            exact ((serviceOk_props s hs).2.2 c0 s2 hsd).1 h4
        | inr hc =>
          obtain ⟨a2, _, hr⟩ := hc
          cases a2 with
          | nil =>
            exfalso
            simp only [List.nil_append] at hr
            injection hr with h4 _
            exact absurd h4 (by decide)
          | cons d a3 =>
            simp only [List.cons_append] at hr
            injection hr with _ hr2
            cases a3 with
            | nil =>
              exfalso
              simp only [List.nil_append] at hr2
              injection hr2 with h4 _
              exact absurd h4 (by decide)
            | cons e a4 =>
              simp only [List.cons_append] at hr2
              injection hr2 with _ hr3
              exact List.mem_cons_of_mem v (ih hrest a4 t2 hr3)

lemma quotedSub_mem (l : List String) (s : String)
    (hl : ∀ v ∈ l, ∀ c ∈ v.data, c ≠ '"') (hs : serviceOk s = true)
    (hm : hasSubL ('"' :: (s.data ++ ['"'])) (dumpsListData l) = true) : s ∈ l := by
  obtain ⟨t1, t2, h⟩ := (hasSubL_iff _ _).mp hm
  have h2 : dumpsListData l = t1 ++ '"' :: (s.data ++ '"' :: t2) := by
    rw [h]
    simp
  unfold dumpsListData at h2
  cases t1 with
  | nil =>
    exfalso
    simp only [List.nil_append] at h2
    injection h2 with h3 _
    exact absurd h3 (by decide)
  | cons c t1' =>
    simp only [List.cons_append] at h2
    injection h2 with _ h3
    exact quoted_match_aux s hs l hl t1' t2 h3.symm

lemma char_toNat_ofNat (n : Nat) (h : n.isValidChar) : (Char.ofNat n).toNat = n := by
  rw [Char.ofNat, dif_pos h]
  rfl

lemma lowerCh_eq_nonletter (c d : Char) (hd : ¬(97 ≤ d.toNat ∧ d.toNat ≤ 122))
    (h : lowerCh c = d) : c = d := by
  unfold lowerCh at h
  split at h
  · exfalso
    rename_i hup
    have hb : 65 ≤ c.toNat ∧ c.toNat ≤ 90 := by simpa [isAsciiUpperCh] using hup
    have hv : (c.toNat + 32).isValidChar := Or.inl (by omega)
    have ht : (Char.ofNat (c.toNat + 32)).toNat = c.toNat + 32 := char_toNat_ofNat _ hv
    rw [h] at ht
    exact hd ⟨by omega, by omega⟩
  · exact h

lemma lowerL_eq_map (l : List Char) : lowerL l = l.map lowerCh := by
  induction l with
  | nil => rfl
  | cons c rest ih => simp [lowerL, ih]

lemma lowerL_append (a b : List Char) : lowerL (a ++ b) = lowerL a ++ lowerL b := by
  induction a with
  | nil => rfl
  | cons c rest ih => simp [lowerL, ih]

lemma lowerL_escL (x : List Char) : lowerL (escL x) = escL (lowerL x) := by
  induction x with
  | nil => rfl
  | cons c rest ih =>
    simp only [escL, lowerL]
    rw [lowerL_append, ih]
    congr 1
    by_cases hq : c = '"'
    · subst hq; decide
    · by_cases hb : c = '\\'
      · subst hb; decide
      · have h1 : lowerCh c ≠ '"' := fun hc => hq (lowerCh_eq_nonletter c '"' (by decide) hc)
        have h2 : lowerCh c ≠ '\\' := fun hc => hb (lowerCh_eq_nonletter c '\\' (by decide) hc)
        simp [escChar, lowerL, beq_iff_eq, hq, hb, h1, h2]

lemma lowerL_joinCommaL (xs : List (List Char)) :
    lowerL (joinCommaL xs) = joinCommaL (xs.map lowerL) := by
  induction xs with
  | nil => rfl
  | cons x rest ih =>
    cases rest with
    | nil => rfl
    | cons y rest2 =>
      simp only [joinCommaL, List.map_cons]
      rw [lowerL_append]
      simp [lowerL, ih, show lowerCh ',' = ',' from by decide,
        show lowerCh ' ' = ' ' from by decide]

lemma lowerL_quotedItem (v : String) : lowerL (quotedItem v) = quotedItem (pyLower v) := by
  unfold quotedItem pyLower
  simp [lowerL, lowerL_append, lowerL_escL, show lowerCh '"' = '"' from by decide]

lemma map_quoted_lower (l : List String) :
    (l.map quotedItem).map lowerL = (l.map pyLower).map quotedItem := by
  induction l with
  | nil => rfl
  | cons v rest ih => simp [lowerL_quotedItem, ih]

lemma lowerL_dumps (l : List String) :
    lowerL (dumpsListData l) = dumpsListData (l.map pyLower) := by
  unfold dumpsListData
  simp only [lowerL, lowerL_append, lowerL_joinCommaL, map_quoted_lower,
    show lowerCh '[' = '[' from by decide, show lowerCh ']' = ']' from by decide]

lemma likeMatch_mem (l : List String) (s : String)
    (hl : ∀ v ∈ l, ∀ c ∈ v.data, c ≠ '"') (hs : serviceOk (pyLower s) = true)
    (hm : likeMatch l s = true) : pyLower s ∈ l.map pyLower := by
  unfold likeMatch at hm
  rw [lowerL_dumps] at hm
  have hpat : lowerL ('"' :: (s.data ++ ['"'])) = '"' :: ((pyLower s).data ++ ['"']) := by
    simp [lowerL, lowerL_append, pyLower, show lowerCh '"' = '"' from by decide]
  rw [hpat] at hm
  have hl2 : ∀ v2 ∈ l.map pyLower, ∀ c ∈ v2.data, c ≠ '"' := by
    intro v2 hv2 c hc
    obtain ⟨v, hv, hveq⟩ := List.mem_map.mp hv2
    rw [← hveq] at hc
    have hc2 : c ∈ lowerL v.data := hc
    rw [lowerL_eq_map] at hc2
    obtain ⟨x, hx, hxeq⟩ := List.mem_map.mp hc2
    intro hcq
    subst hcq
    exact hl v hv x hx (lowerCh_eq_nonletter x '"' (by decide) hxeq)
  exact quotedSub_mem (l.map pyLower) (pyLower s) hl2 hs hm

lemma categoryServices_ok_lower (c : String) (svs : List String)
    (h : categoryServices c = some svs) : ∀ s ∈ svs, serviceOk (pyLower s) = true := by
  unfold categoryServices at h
  obtain ⟨p, hp, hps⟩ := Option.map_eq_some'.mp h
  have hmem : p ∈ getServiceCategories := List.mem_of_find?_eq_some hp
  have hall : ∀ q ∈ getServiceCategories, ∀ s ∈ q.2, serviceOk (pyLower s) = true := by decide
  intro s hsv
  exact hall p hmem s (by rw [hps]; exact hsv)

/-- C8 amended: for a known category, every returned record whose integration
identifiers contain no double quote has some integration equal to a category
service up to ASCII case — the SQL test is `LIKE '%"<service>"%'` against the
JSON-dumped column, and SQLite LIKE's default ASCII case-insensitive match
coincides with case-folded membership exactly for quote-free identifiers.
Exact intersection can fail (case-variant or quote-bearing identifiers).  An
unknown category yields the empty result with total 0 and raises nothing. -/
theorem claim_C8_category_closure (store : List WorkflowRecord) (category : String)
    (limit offset : Nat) :
    (∀ services, categoryServices category = some services →
      ∀ r ∈ (searchByCategory store category limit offset).1,
        (∀ v ∈ r.integrations, ∀ c ∈ v.data, c ≠ '"') →
        ∃ s ∈ services, ∃ v ∈ r.integrations, pyLower v = pyLower s) ∧
    (categoryServices category = none →
      searchByCategory store category limit offset = ([], 0)) := by
  constructor
  · intro services hsvc r hr hq
    have hr2 : r ∈ (store.filter
        (fun r2 => services.any (fun s => likeMatch r2.integrations s))).drop offset :=
      List.mem_of_mem_take (by simpa [searchByCategory, hsvc] using hr)
    have hr3 := List.mem_of_mem_drop hr2
    have hr4 := (List.mem_filter.mp hr3).2
    obtain ⟨s, hsmem, hsmatch⟩ := List.any_eq_true.mp hr4
    have hmem := likeMatch_mem r.integrations s hq
      (categoryServices_ok_lower category services hsvc s hsmem) hsmatch
    obtain ⟨v, hv, hveq⟩ := List.mem_map.mp hmem
    exact ⟨s, hsmem, v, hv, hveq⟩
  · intro h
    simp [searchByCategory, h]

/-- C8 as stated fails on the code in two ways.  Case variance: node type
`n8n-nodes-base.postgresql` misses the table (key `postgres`) and yields the
quote-free fallback integration `Postgresql`, whose column `["Postgresql"]`
matches `LIKE '%"PostgreSQL"%'` under SQLite's ASCII case-insensitive LIKE, so
the `database` search returns a record intersecting none of the category's
services.  Quote injection: type `n8n-nodes-base.my"slack` yields `My"Slack`,
whose serialization `["My\"Slack"]` matches `LIKE '%"Slack"%'`, so the
`messaging` search returns a record intersecting none of its services. -/
theorem claim_C8_counterexample :
    (c8PgRec.integrations = ["Postgresql"] ∧
     (searchByCategory [c8PgRec] "database" 50 0).1 = [c8PgRec] ∧
     ((categoryServices "database").getD []).contains "Postgresql" = false) ∧
    (c8BadRec.integrations = ["My\"Slack"] ∧
     (searchByCategory [c8BadRec] "messaging" 50 0).1 = [c8BadRec] ∧
     ((categoryServices "messaging").getD []).contains "My\"Slack" = false) ∧
    categoryServices "database" ≠ none ∧
    categoryServices "messaging" ≠ none := by decide

/-- Witness for C8 (amended): a genuine Slack record searched under
`messaging` carries an integration equal (up to ASCII case) to a category
service, and an unknown category returns the empty result. -/
theorem claim_C8_witness :
    (∃ s ∈ (categoryServices "messaging").getD [],
      ∃ v ∈ c8SlackRec.integrations, pyLower v = pyLower s) ∧
    searchByCategory [] "bogus" 50 0 = ([], 0) :=
  ⟨(claim_C8_category_closure [c8SlackRec] "messaging" 50 0).1
      ((categoryServices "messaging").getD []) (by decide) c8SlackRec (by decide) (by decide),
   (claim_C8_category_closure [] "bogus" 50 0).2 (by decide)⟩

end WorkflowDB
